import Mathlib

/-!
A shallow embedding of `include/handy_variant.hpp` (namespace `handy_variant`).

The header is a set of templates over `std::variant<Types...>`.  A template
argument list is a `List Ty`, a template instantiation that the compiler
rejects is the outcome `ill_formed`, a C++ exception is the outcome `throws`,
and a normal return is the outcome `returns`.

Library facts used by the header (and taken from the C++ standard, not from
this repository): `std::is_same`, `std::conjunction`, `std::disjunction`,
`std::is_convertible`, `std::holds_alternative`, `std::get`, `std::visit`,
the converting constructor of `std::variant`, `std::to_string`, `std::stoi`,
`std::stol`, and `std::unordered_map`.  Floating-point arithmetic is not
interpreted: its primitives are the fields of `FloatOps`.
-/

set_option autoImplicit false

namespace handy_variant

/-! ## Types, values, exceptions, outcomes -/

/-- The alternative types the header has rules for (`int`, `long`, `float`,
`double`, `bool`, `std::string`), and `std::shared_ptr<C>` for a class `C`
named by a number; two different numbers name unrelated classes. -/
inductive Ty where
  | int
  | long
  | float
  | double
  | bool
  | string
  | shared_ptr (pointee : Nat)
  deriving DecidableEq

/-- A floating-point datum, kept as its bit pattern; it is only ever produced
and consumed by the primitives of `FloatOps`. -/
structure Flt where
  bits : Nat
  deriving DecidableEq, Inhabited

/-- A value of one of the types of `Ty`.  `int` is 32 bits and `long` is
64 bits wide (see `Val.wf`); a `shared_ptr` is null (`none`) or names the
object it owns. -/
inductive Val where
  | int (n : Int)
  | long (n : Int)
  | float (x : Flt)
  | double (x : Flt)
  | bool (b : Bool)
  | string (s : String)
  | shared_ptr (pointee : Nat) (p : Option Nat)
  deriving DecidableEq

/-- The static type of a value. -/
def Val.type : Val → Ty
  | .int _ => .int
  | .long _ => .long
  | .float _ => .float
  | .double _ => .double
  | .bool _ => .bool
  | .string _ => .string
  | .shared_ptr c _ => .shared_ptr c

/-- `INT_MIN`. -/
def INT_MIN : Int := -2147483648

/-- `INT_MAX`. -/
def INT_MAX : Int := 2147483647

/-- `LONG_MIN` (LP64). -/
def LONG_MIN : Int := -9223372036854775808

/-- `LONG_MAX` (LP64). -/
def LONG_MAX : Int := 9223372036854775807

/-- A value is representable in its type. -/
def Val.wf : Val → Prop
  | .int n => INT_MIN ≤ n ∧ n ≤ INT_MAX
  | .long n => LONG_MIN ≤ n ∧ n ≤ LONG_MAX
  | _ => True

/-- The `what()` text of the exceptions the header can raise, kept
structured: the two type names of line 60-61, the name of the failing
`std::sto*` call, the fixed text of lines 186 and 201, the key of line 260,
and the text of `std::unordered_map::at`. -/
inductive What where
  | cant_static_cast (L T : Ty)
  | stoi
  | stol
  | stof
  | stod
  | incompatible_type
  | no_such_key (key : String)
  | map_at
  deriving DecidableEq

/-- The exception classes that occur; all derive from `std::exception`. -/
inductive Exn where
  | invalid_argument (what : What)
  | out_of_range (what : What)
  deriving DecidableEq

/-- What becomes of a call of a function template: the instantiation does not
compile, or the call raises, or it returns. -/
inductive Outcome (α : Type) where
  | ill_formed
  | throws (e : Exn)
  | returns (a : α)
  deriving DecidableEq, Inhabited

/-! ## Type traits -/

/-- `std::is_same<A, B>::value`. -/
def is_same (A B : Ty) : Bool := decide (A = B)

/-- `std::conjunction<Bs...>::value`; true for the empty pack. -/
def conjunction (bs : List Bool) : Bool := bs.all id

/-- `std::disjunction<Bs...>::value`; false for the empty pack. -/
def disjunction (bs : List Bool) : Bool := bs.any id

/-! ## `get_index_in` and `index_of` (lines 15-28, 126-132, 283-289) -/

/-- `get_index_in<T, Types...>(index)`: the base overload (empty `Types`)
returns 0, the recursive one returns `index` at the first `L` equal to `T`. -/
def get_index_in (T : Ty) : List Ty → Nat → Nat
  | [], _ => 0
  | L :: Types, index => if is_same L T then index else get_index_in T Types (index + 1)

/-- The condition of the `static_assert` of lines 129, 143 and 286:
`!std::conjunction<std::is_same<T, Types>...>::value`. -/
def static_assert_cond (T : Ty) (Types : List Ty) : Bool :=
  !conjunction (Types.map (is_same T))

/-- `index_of<T>(const std::variant<Types...> &)`; the argument is not read. -/
def index_of (T : Ty) (Types : List Ty) : Outcome Nat :=
  if static_assert_cond T Types then .returns (get_index_in T Types 0) else .ill_formed

/-- `variant_map<Types...>::index_of<T>()`. -/
def variant_map.index_of (T : Ty) (Types : List Ty) : Outcome Nat :=
  if static_assert_cond T Types then .returns (get_index_in T Types 0) else .ill_formed

/-! ## The `std::variant` object -/

/-- A `std::variant<Types...>` object: the zero-based index of the active
alternative, and the value held. -/
structure Variant where
  index : Nat
  value : Val
  deriving DecidableEq

/-- The object is a variant over `Types`: the alternative at its index is the
type of the value it holds. -/
def Variant.wf (Types : List Ty) (t : Variant) : Prop :=
  Types[t.index]? = some t.value.type

instance (Types : List Ty) (t : Variant) : Decidable (t.wf Types) :=
  inferInstanceAs (Decidable (Types[t.index]? = some t.value.type))

/-- `std::holds_alternative<T>(t)` for `t` of type `std::variant<Types...>`:
the active index is the position of `T` (the call is ill-formed unless `T`
occurs exactly once in `Types`; the callers below check that). -/
def holds_alternative (T : Ty) (Types : List Ty) (t : Variant) : Bool :=
  t.index == Types.indexOf T

/-- The converting constructor and assignment of `std::variant<Types...>` from
a value whose type is one of `Types`: the alternative of that very type is
selected. -/
def Variant.of (Types : List Ty) (v : Val) : Variant :=
  ⟨Types.indexOf v.type, v⟩

/-! ## `std::to_string`, `std::stoi`, `std::stol` -/

/-- `isspace` in the "C" locale: space, `\t`, `\n`, `\v`, `\f`, `\r`. -/
def isspace (c : Char) : Bool :=
  c.toNat = 32 || (9 ≤ c.toNat && c.toNat ≤ 13)

/-- `isdigit`. -/
def isdigit (c : Char) : Bool :=
  48 ≤ c.toNat && c.toNat ≤ 57

/-- The character of a decimal digit `d < 10`. -/
def digit_char (d : Nat) : Char := Char.ofNat (48 + d)

/-- The value of a decimal digit character. -/
def digit_value (c : Char) : Nat := c.toNat - 48

/-- The decimal digits of `n`, most significant first, without leading zero;
`fuel` bounds the number of digits. -/
def digits_of : Nat → Nat → List Char
  | 0, _ => []
  | fuel + 1, n =>
    if n < 10 then [digit_char n] else digits_of fuel (n / 10) ++ [digit_char (n % 10)]

/-- `std::to_string` of an integer (`int` or `long`): as if by `%d`. -/
def to_string (n : Int) : String :=
  String.mk ((if n < 0 then [ '-'] else []) ++ digits_of (n.natAbs + 1) n.natAbs)

/-- The number a run of decimal digits denotes. -/
def decimal_value (ds : List Char) : Nat :=
  ds.foldl (fun acc c => 10 * acc + digit_value c) 0

/-- `std::stoi` / `std::stol` (base 10), after `strtol`: leading white space is
skipped, one sign is accepted, the longest run of digits is read and the rest
of the text is ignored; no digit at all is `std::invalid_argument`, a value
outside `[lo, hi]` is `std::out_of_range`. -/
def strtol_checked (what : What) (lo hi : Int) (s : String) : Outcome Int :=
  let r := s.data.dropWhile isspace
  let neg := r.head? = some '-'
  let r := if r.head? = some '-' ∨ r.head? = some '+' then r.tail else r
  let ds := r.takeWhile isdigit
  if ds.isEmpty then .throws (.invalid_argument what)
  else
    let n : Int := if neg then -(decimal_value ds : Int) else (decimal_value ds : Int)
    if n < lo ∨ hi < n then .throws (.out_of_range what) else .returns n

/-- `std::stoi(s)`. -/
def stoi (s : String) : Outcome Int := strtol_checked .stoi INT_MIN INT_MAX s

/-- `std::stol(s)`. -/
def stol (s : String) : Outcome Int := strtol_checked .stol LONG_MIN LONG_MAX s

/-! ## Conversion rules: `_basic_cast` (lines 34-118) -/

/-- The floating-point primitives of the C++ implementation the header relies
on.  They are parameters of the embedding; `T` and `L` name the floating type
(`float` or `double`) or the integral type (`int` or `long`) involved. -/
structure FloatOps where
  /-- The `static_cast<T>(n)` of an integral value `n` to the floating type `T`. -/
  of_integral : Ty → Int → Flt
  /-- The `static_cast<T>(x)` of `x` of floating type `L` to the integral type `T`. -/
  to_integral : Ty → Ty → Flt → Int
  /-- The `static_cast<bool>(x)` of `x` of floating type `L`. -/
  to_bool : Ty → Flt → Bool
  /-- The `static_cast<T>(x)` of `x` of floating type `L` to the other floating type `T`. -/
  resize : Ty → Ty → Flt → Flt
  /-- The `std::to_string(x)` of `x` of floating type `L`. -/
  to_string : Ty → Flt → String
  /-- The call `std::stof(s)`, a `float`. -/
  stof : String → Outcome Flt
  /-- The call `std::stod(s)`, a `double`. -/
  stod : String → Outcome Flt
  deriving Inhabited

/-- The arithmetic types. -/
def Ty.is_arithmetic : Ty → Bool
  | .int | .long | .float | .double | .bool => true
  | .string | .shared_ptr _ => false

/-- `std::is_convertible<L, T>::value` on the types of `Ty`: arithmetic types
convert to one another, every type converts to itself, and nothing else does
(no conversion between `std::string` and a number in either direction, none
between a `shared_ptr` and a number or text, none between pointers to
unrelated classes). -/
def is_convertible (L T : Ty) : Bool :=
  (L.is_arithmetic && T.is_arithmetic) || is_same L T

/-- The `static_cast<T>` of the integral value `n` (of an `int`, a `long`, or a
`bool` taken as 0 or 1) to an arithmetic type `T`; conversion to a narrower
signed type wraps modulo 2^width. -/
def integral_to (fp : FloatOps) (T : Ty) (n : Int) (v : Val) : Val :=
  match T with
  | .int => .int (Int.bmod n (2 ^ 32))
  | .long => .long (Int.bmod n (2 ^ 64))
  | .bool => .bool (decide (n ≠ 0))
  | .float => .float (fp.of_integral .float n)
  | .double => .double (fp.of_integral .double n)
  | .string | .shared_ptr _ => v

/-- The `static_cast<T>` of `x` of floating type `L` to an arithmetic type `T`. -/
def floating_to (fp : FloatOps) (L T : Ty) (x : Flt) (v : Val) : Val :=
  match T with
  | .int => .int (fp.to_integral L .int x)
  | .long => .long (fp.to_integral L .long x)
  | .bool => .bool (fp.to_bool L x)
  | .float => .float (fp.resize L .float x)
  | .double => .double (fp.resize L .double x)
  | .string | .shared_ptr _ => v

/-- The `static_cast<T>(v)` of line 50, for a pair with
`is_convertible (type of v) T`: the identity when `T` is the type of `v`, the
arithmetic conversions otherwise. -/
def static_cast (fp : FloatOps) (T : Ty) (v : Val) : Val :=
  if v.type = T then v
  else
    match v with
    | .int n => integral_to fp T n v
    | .long n => integral_to fp T n v
    | .bool b => integral_to fp T (if b then 1 else 0) v
    | .float x => floating_to fp .float T x v
    | .double x => floating_to fp .double T x v
    | .string _ => v
    | .shared_ptr _ _ => v

/-- The pairs `(L, T)` for which the header has an explicit specialisation
`_basic_cast<L, T, false>` (lines 67-118). -/
def has_specialization (L T : Ty) : Bool :=
  match L, T with
  | .int, .string => true
  | .long, .string => true
  | .double, .string => true
  | .float, .string => true
  | .bool, .string => true
  | .string, .int => true
  | .string, .long => true
  | .string, .double => true
  | .string, .float => true
  | .string, .bool => true
  | _, _ => false

/-- Apply `f` to the result of a call that returns. -/
def Outcome.map {α β : Type} (f : α → β) : Outcome α → Outcome β
  | .ill_formed => .ill_formed
  | .throws e => .throws e
  | .returns a => .returns (f a)

/-- `_basic_cast<L, T>::vl(v)` where `L` is the type of `v`.  The third
template argument defaults to `std::is_convertible<L, T>::value`: when it is
true the partial specialisation of line 46 applies (`static_cast`); when it is
false an explicit specialisation of lines 67-118 applies if there is one for
the pair, and the throwing partial specialisation of line 56 otherwise.  (Line
106 returns the `float` of `std::stof` as a `double`, line 112 the `double`
of `std::stod` as a `float`.) -/
def _basic_cast (fp : FloatOps) (T : Ty) (v : Val) : Outcome Val :=
  if is_convertible v.type T then .returns (static_cast fp T v)
  else
    match v, T with
    | .int n, .string => .returns (.string (to_string n))
    | .long n, .string => .returns (.string (to_string n))
    | .double x, .string => .returns (.string (fp.to_string .double x))
    | .float x, .string => .returns (.string (fp.to_string .float x))
    | .bool b, .string => .returns (.string (if b then "true" else "false"))
    | .string s, .int => (stoi s).map Val.int
    | .string s, .long => (stol s).map Val.long
    | .string s, .double => (fp.stof s).map (fun x => Val.double (fp.resize .float .double x))
    | .string s, .float => (fp.stod s).map (fun x => Val.float (fp.resize .double .float x))
    | .string s, .bool => .returns (.bool (decide (s = "true")))
    | _, _ => .throws (.invalid_argument (.cant_static_cast v.type T))

/-! ## `variant_cast` (lines 140-174) -/

/-- The strict `variant_cast<T>(t)` for `t` of type `std::variant<Types...>`.
The instantiation needs the `static_assert` of line 143 to hold and, for
`std::holds_alternative<T>` and `std::get<T>`, `T` to occur exactly once in
`Types`.  At run time the value is returned as it is when `T` is the active
alternative; otherwise `std::visit` hands the active value to `_basic_cast`. -/
def variant_cast (fp : FloatOps) (T : Ty) (Types : List Ty) (t : Variant) : Outcome Val :=
  if !static_assert_cond T Types then .ill_formed
  else if Types.count T != 1 then .ill_formed
  else if holds_alternative T Types t then .returns t.value
  else _basic_cast fp T t.value

/-- The defaulting `variant_cast<T>(t, default_value)`: the strict call inside
`try`, and `catch (std::exception)` catches every exception class of `Exn`. -/
def variant_cast_default (fp : FloatOps) (T : Ty) (Types : List Ty) (t : Variant)
    (default_value : Val) : Outcome Val :=
  match variant_cast fp T Types t with
  | .ill_formed => .ill_formed
  | .throws _ => .returns default_value
  | .returns v => .returns v

/-! ## `variant_to_variant`, returning overload (lines 176-189) -/

/-- `variant_to_variant<dstTypes...>(t)`: `std::visit` hands the active value
`v` to the lambda; if its type is one of `dstTypes` the lambda returns `v`,
which constructs the `std::variant<dstTypes...>`, and otherwise it throws. -/
def variant_to_variant (dstTypes : List Ty) (t : Variant) : Outcome Variant :=
  if disjunction (dstTypes.map (is_same t.value.type)) then
    .returns (Variant.of dstTypes t.value)
  else .throws (.invalid_argument .incompatible_type)

/-! ## `variant_to_variant`, in-place overload (lines 191-204) -/

/-- `variant_to_variant(dst, t)` for `dst` of type `std::variant<dstTypes...>`:
the outcome of the call and the content of `dst` after it.  The right-hand side
`std::visit(...)` is evaluated first, with the same lambda as in the returning
overload; only when it has returned is its result assigned to `dst`. -/
def variant_to_variant_in_place (dstTypes : List Ty) (dst t : Variant) :
    Outcome Unit × Variant :=
  let visited : Outcome Variant :=
    if disjunction (dstTypes.map (is_same t.value.type)) then
      .returns (Variant.of dstTypes t.value)
    else .throws (.invalid_argument .incompatible_type)
  match visited with
  | .ill_formed => (.ill_formed, dst)
  | .throws e => (.throws e, dst)
  | .returns r => (.returns (), r)

/-! ## `variant_map` (lines 207-300) -/

/-- `variant_map<Types...>`: the member `values`, a `std::unordered_map` from
`std::string` to `std::variant<Types...>`, as a list of entries; a key is
looked up at its first entry. -/
structure variant_map where
  values : List (String × Variant)
  deriving DecidableEq

/-- `values.count(key)`: 1 if there is an entry, 0 if not. -/
def variant_map.count (m : variant_map) (key : String) : Nat :=
  if (m.values.lookup key).isSome then 1 else 0

/-- `values.at(key)`: the entry, or `std::out_of_range`. -/
def variant_map.values_at (m : variant_map) (key : String) : Outcome Variant :=
  match m.values.lookup key with
  | some t => .returns t
  | none => .throws (.out_of_range .map_at)

/-- The strict `cast_get<T>(key)` (lines 256-264). -/
def variant_map.cast_get (fp : FloatOps) (T : Ty) (Types : List Ty) (m : variant_map)
    (key : String) : Outcome Val :=
  if !static_assert_cond T Types || Types.count T != 1 then .ill_formed
  else if m.count key ≤ 0 then .throws (.invalid_argument (.no_such_key key))
  else
    match m.values_at key with
    | .ill_formed => .ill_formed
    | .throws e => .throws e
    | .returns t =>
      if holds_alternative T Types t then .returns t.value else variant_cast fp T Types t

/-- The defaulting `cast_get<T>(key, default_value)` (lines 246-254). -/
def variant_map.cast_get_default (fp : FloatOps) (T : Ty) (Types : List Ty) (m : variant_map)
    (key : String) (default_value : Val) : Outcome Val :=
  if !static_assert_cond T Types || Types.count T != 1 then .ill_formed
  else if m.count key ≤ 0 then .returns default_value
  else
    match m.values_at key with
    | .ill_formed => .ill_formed
    | .throws e => .throws e
    | .returns t =>
      if holds_alternative T Types t then .returns t.value
      else variant_cast_default fp T Types t default_value

/-- `has(key)` (lines 221-224). -/
def variant_map.has (m : variant_map) (key : String) : Bool :=
  decide (m.count key > 0)

/-- `is_hold_as<T>(key)` (lines 226-234); `std::holds_alternative<T>` needs `T`
to occur exactly once in `Types`. -/
def variant_map.is_hold_as (T : Ty) (Types : List Ty) (m : variant_map) (key : String) :
    Outcome Bool :=
  if Types.count T != 1 then .ill_formed
  else if m.count key ≤ 0 then .returns false
  else
    match m.values_at key with
    | .ill_formed => .ill_formed
    | .throws e => .throws e
    | .returns t => if holds_alternative T Types t then .returns true else .returns false

/-- `get<T>(key, default_value)` (lines 236-244); `std::holds_alternative<T>`
and `std::get<T>` need `T` to occur exactly once in `Types`. -/
def variant_map.get (T : Ty) (Types : List Ty) (m : variant_map) (key : String)
    (default_value : Val) : Outcome Val :=
  if Types.count T != 1 then .ill_formed
  else if m.count key ≤ 0 then .returns default_value
  else
    match m.values_at key with
    | .ill_formed => .ill_formed
    | .throws e => .throws e
    | .returns t =>
      if holds_alternative T Types t then .returns t.value else .returns default_value

/-- The entries after `values[key] = t`: the entry of `key` is found, or
made, and then holds `t`; no other entry is touched. -/
def assign_entry (key : String) (t : Variant) :
    List (String × Variant) → List (String × Variant)
  | [] => [(key, t)]
  | (k, x) :: rest =>
    if key == k then (k, t) :: rest else (k, x) :: assign_entry key t rest

/-- `set<T>(key, v)` (lines 266-270), for a value `v` whose type `T` is one of
`Types`: the map after `values[key] = v`, where the assignment makes the entry
hold `v` as the alternative `T`. -/
def variant_map.set (Types : List Ty) (m : variant_map) (key : String) (v : Val) :
    variant_map :=
  ⟨assign_entry key (Variant.of Types v) m.values⟩

/-- `emplace<T>(key, v)` (lines 272-276), for a value `v` whose type `T` is one
of `Types`: the `bool` of the pair that `values.emplace(key, v)` returns, and
the map after the call.  An entry is made only when `key` has none. -/
def variant_map.emplace (Types : List Ty) (m : variant_map) (key : String) (v : Val) :
    Bool × variant_map :=
  if (m.values.lookup key).isSome then (false, m)
  else (true, ⟨(key, Variant.of Types v) :: m.values⟩)

/-- `index_at(key)` (lines 278-281): the outcome of `values.at(key).index()`,
and the map after the call; `at` only reads the map. -/
def variant_map.index_at (m : variant_map) (key : String) : Outcome Nat × variant_map :=
  match m.values_at key with
  | .ill_formed => (.ill_formed, m)
  | .throws e => (.throws e, m)
  | .returns t => (.returns t.index, m)

/-! ## Spec-side predicates on texts, used to state the claims on `std::stoi` -/

/-- Spec-side reading of "the text has a valid integer prefix": the text is
white space `ws`, then an optional sign (`neg` tells a minus), then a
non-empty run `ds` of decimal digits, then `rest`. -/
def spec_integer_lead (s : String) (neg : Bool) (ds rest : List Char) : Prop :=
  ∃ ws sign : List Char, s.data = ws ++ (sign ++ (ds ++ rest)) ∧
    (∀ c ∈ ws, isspace c = true) ∧
    ((sign = [] ∧ neg = false) ∨ (sign = [ '+'] ∧ neg = false) ∨ (sign = [ '-'] ∧ neg = true)) ∧
    ds ≠ [] ∧ ∀ c ∈ ds, isdigit c = true

/-- Spec-side: the text has some valid integer prefix. -/
def spec_has_integer_lead (s : String) : Prop :=
  ∃ (neg : Bool) (ds rest : List Char), spec_integer_lead s neg ds rest

/-- Spec-side: the integer a sign and a run of digits denote. -/
def spec_signed_value (neg : Bool) (ds : List Char) : Int :=
  if neg then -(decimal_value ds : Int) else (decimal_value ds : Int)

theorem get_index_in_of_not_mem (T : Ty) (Types : List Ty) (index : Nat) (h : T ∉ Types) :
    get_index_in T Types index = 0 := by
  induction Types generalizing index with
  | nil => rfl
  | cons L Types ih =>
    have hL : L ≠ T := fun e => h (e ▸ List.mem_cons_self _ _)
    have hT : T ∉ Types := fun m => h (List.mem_cons_of_mem _ m)
    simp [get_index_in, is_same, hL, ih _ hT]

theorem get_index_in_of_mem (T : Ty) (Types : List Ty) (index : Nat) (h : T ∈ Types) :
    get_index_in T Types index = index + Types.indexOf T := by
  induction Types generalizing index with
  | nil => simp at h
  | cons L Types ih =>
    by_cases hL : L = T
    · subst hL
      simp [get_index_in, is_same]
    · have hT : T ∈ Types := by
        rcases List.mem_cons.mp h with e | m
        · exact absurd e.symm hL
        · exact m
      simp only [get_index_in, is_same, hL, decide_False, Bool.false_eq_true, if_false]
      rw [ih _ hT, List.indexOf_cons_ne _ hL]
      omega

theorem static_assert_cond_iff (T : Ty) (Types : List Ty) :
    static_assert_cond T Types = true ↔ ∃ L ∈ Types, L ≠ T := by
  induction Types with
  | nil => simp [static_assert_cond, conjunction]
  | cons A rest ih =>
    simp only [static_assert_cond, conjunction, is_same, List.map_cons, List.all_cons, id,
      Bool.not_and, Bool.or_eq_true, Bool.not_eq_true', decide_eq_false_iff_not,
      List.mem_cons, exists_eq_or_imp] at ih ⊢
    rw [ih]
    constructor
    · rintro (h | h)
      · exact Or.inl (fun e => h e.symm)
      · exact Or.inr h
    · rintro (h | h)
      · exact Or.inl (fun e => h e.symm)
      · exact Or.inr h

theorem static_assert_cond_of_two (T L : Ty) (Types : List Ty) (hL : L ∈ Types) (hne : L ≠ T) :
    static_assert_cond T Types = true :=
  (static_assert_cond_iff T Types).mpr ⟨L, hL, hne⟩

/-- In a list of at least two distinct types some type differs from `T`. -/
theorem exists_ne_of_nodup (T : Ty) (Types : List Ty) (hnd : Types.Nodup)
    (hlen : 2 ≤ Types.length) : ∃ L ∈ Types, L ≠ T := by
  match Types, hnd, hlen with
  | A :: B :: rest, hnd, _ =>
    have hAB : A ≠ B := by
      intro e
      rw [List.nodup_cons] at hnd
      exact hnd.1 (e ▸ List.mem_cons_self _ _)
    by_cases hA : A = T
    · refine ⟨B, by simp, ?_⟩
      intro hB
      exact hAB (hA.trans hB.symm)
    · exact ⟨A, by simp, hA⟩

/-- With at least two distinct alternatives the guard lets every type through,
and `index_of` of a member is its position. -/
theorem index_of_member_of_two (T : Ty) (Types : List Ty) (hnd : Types.Nodup)
    (hlen : 2 ≤ Types.length) (hT : T ∈ Types) :
    index_of T Types = .returns (Types.indexOf T) ∧
      variant_map.index_of T Types = .returns (Types.indexOf T) ∧
      Types.indexOf T < Types.length ∧ Types[Types.indexOf T]? = some T := by
  have hg : static_assert_cond T Types = true :=
    (static_assert_cond_iff T Types).mpr (exists_ne_of_nodup T Types hnd hlen)
  refine ⟨?_, ?_, List.indexOf_lt_length.mpr hT, List.getElem?_indexOf hT⟩
  · simp [index_of, hg, get_index_in_of_mem T Types 0 hT]
  · simp [variant_map.index_of, hg, get_index_in_of_mem T Types 0 hT]

/-- Two members of the set with the same position are the same type. -/
theorem indexOf_injective (A B : Ty) (Types : List Ty) (hA : A ∈ Types) (hB : B ∈ Types)
    (h : Types.indexOf A = Types.indexOf B) : A = B :=
  (List.indexOf_inj hA hB).mp h

/-! ## Lemmas on `variant_cast` -/

theorem Variant.type_mem (Types : List Ty) (t : Variant) (ht : t.wf Types) :
    t.value.type ∈ Types :=
  List.getElem?_mem ht

theorem holds_alternative_of_ne (T : Ty) (Types : List Ty) (t : Variant) (ht : t.wf Types)
    (hT : T ∈ Types) (hne : t.value.type ≠ T) : holds_alternative T Types t = false := by
  simp only [holds_alternative, beq_eq_false_iff_ne, ne_eq]
  intro e
  have h1 : Types[t.index]? = some T := e ▸ List.getElem?_indexOf hT
  rw [ht] at h1
  exact hne (Option.some.inj h1)

theorem holds_alternative_of_eq (T : Ty) (Types : List Ty) (t : Variant) (hnd : Types.Nodup)
    (ht : t.wf Types) (he : t.value.type = T) : holds_alternative T Types t = true := by
  simp only [holds_alternative, beq_iff_eq]
  have hlt : t.index < Types.length := by
    rcases Nat.lt_or_ge t.index Types.length with h | h
    · exact h
    · have hnone : Types[t.index]? = none := List.getElem?_eq_none h
      rw [Variant.wf, hnone] at ht
      exact absurd ht (by simp)
  have hget : Types[t.index] = T := by
    have h2 : Types[t.index]? = some Types[t.index] := List.getElem?_eq_getElem hlt
    rw [Variant.wf, h2] at ht
    exact (Option.some.inj ht).trans he
  rw [← hget, List.indexOf_getElem hnd t.index hlt]

/-- When the active alternative is not `T`, the strict cast of a variant over a
set of distinct types that has `T` is the conversion rule of the pair. -/
theorem variant_cast_of_ne (fp : FloatOps) (T : Ty) (Types : List Ty) (t : Variant)
    (hnd : Types.Nodup) (hT : T ∈ Types) (ht : t.wf Types) (hne : t.value.type ≠ T) :
    variant_cast fp T Types t = _basic_cast fp T t.value := by
  have hg : static_assert_cond T Types = true :=
    static_assert_cond_of_two T _ Types (Variant.type_mem Types t ht) hne
  have hc : Types.count T = 1 := List.count_eq_one_of_mem hnd hT
  simp [variant_cast, hg, hc, holds_alternative_of_ne T Types t ht hT hne]

/-- The identity law where the call compiles: if the `static_assert` holds, `T`
occurs once and `T` is the active alternative, the strict cast returns the held
value, whatever the conversion rules are. -/
theorem variant_cast_of_holds (fp : FloatOps) (T : Ty) (Types : List Ty) (t : Variant)
    (hg : static_assert_cond T Types = true) (hc : Types.count T = 1)
    (hh : holds_alternative T Types t = true) :
    variant_cast fp T Types t = .returns t.value := by
  simp [variant_cast, hg, hc, hh]

/-! ## Lemmas on decimal texts -/

theorem isdigit_not_isspace (c : Char) (h : isdigit c = true) : isspace c = false := by
  simp only [isdigit, Bool.and_eq_true, decide_eq_true_eq] at h
  simp only [isspace, Bool.or_eq_false_iff, decide_eq_false_iff_not, Bool.and_eq_false_imp,
    decide_eq_true_eq]
  omega

theorem isdigit_ne_minus (c : Char) (h : isdigit c = true) : c ≠ '-' := by
  rintro rfl
  exact absurd h (by decide)

theorem isdigit_ne_plus (c : Char) (h : isdigit c = true) : c ≠ '+' := by
  rintro rfl
  exact absurd h (by decide)

theorem dropWhile_append_of_head (p : Char → Bool) (ws x : List Char)
    (hws : ∀ c ∈ ws, p c = true) (hx : ∀ c, x.head? = some c → p c = false) :
    (ws ++ x).dropWhile p = x := by
  induction ws with
  | nil =>
    cases x with
    | nil => rfl
    | cons c rest => simp [List.dropWhile, hx c rfl]
  | cons w ws ih =>
    have hw : p w = true := hws w (List.mem_cons_self _ _)
    rw [List.cons_append, List.dropWhile_cons, hw, if_pos rfl]
    exact ih (fun c hc => hws c (List.mem_cons_of_mem _ hc))

theorem takeWhile_append_of_head (p : Char → Bool) (ds x : List Char)
    (hds : ∀ c ∈ ds, p c = true) (hx : ∀ c, x.head? = some c → p c = false) :
    (ds ++ x).takeWhile p = ds := by
  induction ds with
  | nil =>
    cases x with
    | nil => rfl
    | cons c rest => simp [List.takeWhile, hx c rfl]
  | cons w ds ih =>
    have hw : p w = true := hds w (List.mem_cons_self _ _)
    rw [List.cons_append, List.takeWhile_cons, hw, if_pos rfl,
      ih (fun c hc => hds c (List.mem_cons_of_mem _ hc))]

/-- The parse of a text that starts with an integer whose digit run is as long
as possible: the value of the run, unless it is out of range. -/
theorem strtol_checked_of_lead (what : What) (lo hi : Int) (s : String) (neg : Bool)
    (ds rest : List Char) (h : spec_integer_lead s neg ds rest)
    (hrest : ∀ c, rest.head? = some c → isdigit c = false) :
    strtol_checked what lo hi s =
      if spec_signed_value neg ds < lo ∨ hi < spec_signed_value neg ds then
        .throws (.out_of_range what)
      else .returns (spec_signed_value neg ds) := by
  obtain ⟨ws, sign, hdata, hws, hsign, hne, hdig⟩ := h
  obtain ⟨d0, ds1, rfl⟩ : ∃ d0 ds1, ds = d0 :: ds1 := by
    cases ds with
    | nil => exact absurd rfl hne
    | cons d0 ds1 => exact ⟨d0, ds1, rfl⟩
  have hd0 : isdigit d0 = true := hdig d0 (List.mem_cons_self _ _)
  have htake : ((d0 :: ds1) ++ rest).takeWhile isdigit = d0 :: ds1 :=
    takeWhile_append_of_head isdigit (d0 :: ds1) rest hdig hrest
  have hm : d0 ≠ '-' := isdigit_ne_minus d0 hd0
  have hp : d0 ≠ '+' := isdigit_ne_plus d0 hd0
  unfold strtol_checked
  rcases hsign with ⟨rfl, rfl⟩ | ⟨rfl, rfl⟩ | ⟨rfl, rfl⟩
  · have hdrop : s.data.dropWhile isspace = (d0 :: ds1) ++ rest := by
      rw [hdata, List.nil_append]
      exact dropWhile_append_of_head isspace ws _ hws
        (fun c hc => by
          simp only [List.cons_append, List.head?_cons, Option.some.injEq] at hc
          exact isdigit_not_isspace c (hc ▸ hd0))
    simp only [hdrop]
    simp only [List.cons_append, List.head?_cons, Option.some.injEq, hm, hp, or_self, if_false]
    rw [← List.cons_append, htake]
    simp [spec_signed_value]
  · have hdrop : s.data.dropWhile isspace = '+' :: ((d0 :: ds1) ++ rest) := by
      rw [hdata]
      exact dropWhile_append_of_head isspace ws _ hws
        (fun c hc => by
          simp only [List.cons_append, List.nil_append, List.head?_cons,
            Option.some.injEq] at hc
          rw [← hc]; decide)
    simp only [hdrop]
    simp only [List.head?_cons, List.tail_cons, Option.some.injEq, or_true, if_true]
    rw [htake]
    simp [spec_signed_value]
  · have hdrop : s.data.dropWhile isspace = '-' :: ((d0 :: ds1) ++ rest) := by
      rw [hdata]
      exact dropWhile_append_of_head isspace ws _ hws
        (fun c hc => by
          simp only [List.cons_append, List.nil_append, List.head?_cons,
            Option.some.injEq] at hc
          rw [← hc]; decide)
    simp only [hdrop]
    simp only [List.head?_cons, List.tail_cons, Option.some.injEq, true_or, if_true]
    rw [htake]
    simp [spec_signed_value]

theorem eq_cons_tail_of_head (r : List Char) (c : Char) (h : r.head? = some c) :
    r = c :: r.tail := by
  cases r with
  | nil => simp at h
  | cons a rest =>
    simp only [List.head?_cons, Option.some.injEq] at h
    rw [h, List.tail_cons]

/-- The parse of a text without an integer prefix raises
`std::invalid_argument`. -/
theorem strtol_checked_of_no_lead (what : What) (lo hi : Int) (s : String)
    (h : ¬ spec_has_integer_lead s) :
    strtol_checked what lo hi s = .throws (.invalid_argument what) := by
  have hsplit : s.data = s.data.takeWhile isspace ++ s.data.dropWhile isspace :=
    (List.takeWhile_append_dropWhile isspace s.data).symm
  have hws : ∀ c ∈ s.data.takeWhile isspace, isspace c = true :=
    fun c hc => List.mem_takeWhile_imp hc
  have hdig : ∀ (l : List Char), ∀ c ∈ l.takeWhile isdigit, isdigit c = true :=
    fun l c hc => List.mem_takeWhile_imp hc
  have hpart : ∀ l : List Char, l = l.takeWhile isdigit ++ l.dropWhile isdigit :=
    fun l => (List.takeWhile_append_dropWhile isdigit l).symm
  have hE : (List.takeWhile isdigit
      (if (s.data.dropWhile isspace).head? = some '-' ∨
          (s.data.dropWhile isspace).head? = some '+'
        then (s.data.dropWhile isspace).tail else s.data.dropWhile isspace)).isEmpty = true := by
    rw [List.isEmpty_iff]
    by_contra hds
    apply h
    by_cases hm : (s.data.dropWhile isspace).head? = some '-'
    · rw [if_pos (Or.inl hm)] at hds
      refine ⟨true, (s.data.dropWhile isspace).tail.takeWhile isdigit,
        (s.data.dropWhile isspace).tail.dropWhile isdigit, s.data.takeWhile isspace, [ '-'],
        ?_, hws, Or.inr (Or.inr ⟨rfl, rfl⟩), hds, hdig _⟩
      rw [← hpart, List.singleton_append, ← eq_cons_tail_of_head _ _ hm]
      exact hsplit
    · by_cases hp : (s.data.dropWhile isspace).head? = some '+'
      · rw [if_pos (Or.inr hp)] at hds
        refine ⟨false, (s.data.dropWhile isspace).tail.takeWhile isdigit,
          (s.data.dropWhile isspace).tail.dropWhile isdigit, s.data.takeWhile isspace, [ '+'],
          ?_, hws, Or.inr (Or.inl ⟨rfl, rfl⟩), hds, hdig _⟩
        rw [← hpart, List.singleton_append, ← eq_cons_tail_of_head _ _ hp]
        exact hsplit
      · rw [if_neg (fun o => o.elim hm hp)] at hds
        refine ⟨false, (s.data.dropWhile isspace).takeWhile isdigit,
          (s.data.dropWhile isspace).dropWhile isdigit, s.data.takeWhile isspace, [],
          ?_, hws, Or.inl ⟨rfl, rfl⟩, hds, hdig _⟩
        rw [← hpart, List.nil_append]
        exact hsplit
  unfold strtol_checked
  simp only []
  rw [if_pos hE]

theorem head_dropWhile_not (p : Char → Bool) (l : List Char) :
    ∀ c, (l.dropWhile p).head? = some c → p c = false := by
  induction l with
  | nil => intro c h; simp at h
  | cons a rest ih =>
    intro c h
    by_cases ha : p a = true
    · rw [List.dropWhile_cons, if_pos ha] at h
      exact ih c h
    · rw [List.dropWhile_cons, if_neg ha] at h
      simp only [List.head?_cons, Option.some.injEq] at h
      rw [← h]
      simpa using ha

/-- A text with an integer prefix has one whose digit run is as long as
possible. -/
theorem spec_integer_lead_maximal (s : String) (h : spec_has_integer_lead s) :
    ∃ (neg : Bool) (ds rest : List Char), spec_integer_lead s neg ds rest ∧
      ∀ c, rest.head? = some c → isdigit c = false := by
  obtain ⟨neg, ds, rest, ws, sign, hdata, hws, hsign, hne, hdig⟩ := h
  refine ⟨neg, ds ++ rest.takeWhile isdigit, rest.dropWhile isdigit,
    ⟨ws, sign, ?_, hws, hsign, ?_, ?_⟩, head_dropWhile_not isdigit rest⟩
  · rw [List.append_assoc, List.takeWhile_append_dropWhile]
    exact hdata
  · intro e
    exact hne (List.append_eq_nil.mp e).1
  · intro c hc
    rcases List.mem_append.mp hc with hc | hc
    · exact hdig c hc
    · exact List.mem_takeWhile_imp hc

/-- A text has an integer prefix exactly when `std::stoi` does not raise
`std::invalid_argument` on it. -/
theorem spec_has_integer_lead_iff (s : String) :
    spec_has_integer_lead s ↔ stoi s ≠ .throws (.invalid_argument .stoi) := by
  constructor
  · intro h
    obtain ⟨neg, ds, rest, hl, hmax⟩ := spec_integer_lead_maximal s h
    rw [stoi, strtol_checked_of_lead .stoi INT_MIN INT_MAX s neg ds rest hl hmax]
    split <;> simp
  · intro h
    by_contra hn
    exact h (strtol_checked_of_no_lead .stoi INT_MIN INT_MAX s hn)

/-- C1 (the code departs from the claim): over a one-element alternative set
the `static_assert` of `index_of<T>` fails for the only member `T`, because
`std::conjunction` of the single `is_same<T, T>` is true; the free function and
`variant_map::index_of` are both rejected instead of returning position 0. -/
theorem index_of_single_alternative_rejected (T : Ty) :
    index_of T [T] = .ill_formed ∧ variant_map.index_of T [T] = .ill_formed := by
  simp [index_of, variant_map.index_of, static_assert_cond, conjunction, is_same]

/-- C2 (the code departs from the claim): for a type `T` that is not a member
of a non-empty alternative set the `static_assert` holds, the scan of
`get_index_in` runs off the end into the base overload, and both `index_of`
forms return 0. -/
theorem index_of_non_member_returns_zero (T : Ty) (Types : List Ty) (hne : Types ≠ [])
    (hT : T ∉ Types) :
    index_of T Types = .returns 0 ∧ variant_map.index_of T Types = .returns 0 := by
  have hg : static_assert_cond T Types = true := by
    cases Types with
    | nil => exact absurd rfl hne
    | cons L rest =>
      exact static_assert_cond_of_two T L _ (List.mem_cons_self _ _)
        (fun e => hT (e ▸ List.mem_cons_self _ _))
  simp [index_of, variant_map.index_of, hg, get_index_in_of_not_mem T Types 0 hT]

/-- C2, at `std::variant<int, float>` and `T = std::string`: the non-member gets
index 0, which is also the index of the member `int`. -/
theorem index_of_non_member_returns_zero_witness :
    (index_of .string [.int, .float] = .returns 0 ∧
      variant_map.index_of .string [.int, .float] = .returns 0) ∧
      index_of .int [.int, .float] = .returns 0 :=
  ⟨index_of_non_member_returns_zero .string [.int, .float] (by decide) (by decide), by decide⟩

/-! ## Claim C3: the identity law of `variant_cast` -/

/-- C3 (the code departs from the claim): for a variant with the single
alternative `T`, which necessarily holds a `T`, the strict `variant_cast<T>`
is rejected by the `static_assert` of line 143 instead of returning the held
value. -/
theorem variant_cast_single_alternative_rejected (fp : FloatOps) (T : Ty) (t : Variant) :
    variant_cast fp T [T] t = .ill_formed := by
  simp [variant_cast, static_assert_cond, conjunction, is_same]

/-! ## Claims C4 and C7: `int` and text -/

theorem basic_cast_string_to_int (fp : FloatOps) (s : String) :
    _basic_cast fp .int (.string s) = (stoi s).map Val.int := by
  simp [_basic_cast, is_convertible, is_same, Val.type, Ty.is_arithmetic]

/-- C7: for a variant holding the text `s`: if `s` has no valid integer
prefix, the strict `variant_cast<int>` raises the `std::invalid_argument` of
`std::stoi` and the defaulting form returns the default `d`; if `s` is white
space, an optional sign, a longest run of digits `ds` and a remainder, and the
signed value of the run is an `int`, the strict form returns that value. -/
theorem text_to_int_contract (fp : FloatOps) (Types : List Ty) (s : String) (t : Variant)
    (d : Val) (hnd : Types.Nodup) (hint : Ty.int ∈ Types) (ht : t.wf Types)
    (hv : t.value = .string s) :
    (¬ spec_has_integer_lead s →
      variant_cast fp .int Types t = .throws (.invalid_argument .stoi) ∧
        variant_cast_default fp .int Types t d = .returns d) ∧
      (∀ (neg : Bool) (ds rest : List Char), spec_integer_lead s neg ds rest →
        (∀ c, rest.head? = some c → isdigit c = false) →
        INT_MIN ≤ spec_signed_value neg ds → spec_signed_value neg ds ≤ INT_MAX →
        variant_cast fp .int Types t = .returns (.int (spec_signed_value neg ds))) := by
  have hcast : variant_cast fp .int Types t = (stoi s).map Val.int := by
    rw [variant_cast_of_ne fp .int Types t hnd hint ht (by rw [hv]; simp [Val.type]), hv]
    exact basic_cast_string_to_int fp s
  constructor
  · intro hno
    have hstrict : variant_cast fp .int Types t = .throws (.invalid_argument .stoi) := by
      rw [hcast, stoi, strtol_checked_of_no_lead .stoi INT_MIN INT_MAX s hno]
      rfl
    exact ⟨hstrict, by simp [variant_cast_default, hstrict]⟩
  · intro neg ds rest hl hmax hlo hhi
    rw [hcast, stoi, strtol_checked_of_lead .stoi INT_MIN INT_MAX s neg ds rest hl hmax,
      if_neg (by omega)]
    rfl

/-- C7, at the text "true" with default 0, and at the text " -12ab", over
`std::variant<int, bool, std::string>`. -/
theorem text_to_int_contract_witness :
    (variant_cast default .int [.int, .bool, .string] ⟨2, .string "true"⟩
        = .throws (.invalid_argument .stoi) ∧
      variant_cast_default default .int [.int, .bool, .string] ⟨2, .string "true"⟩ (.int 0)
        = .returns (.int 0)) ∧
      variant_cast default .int [.int, .bool, .string] ⟨2, .string " -12ab"⟩
        = .returns (.int (-12)) :=
  ⟨(text_to_int_contract default [.int, .bool, .string] "true" ⟨2, .string "true"⟩ (.int 0)
      (by decide) (by decide) (by decide) rfl).1
      ((spec_has_integer_lead_iff "true").not.mpr (by decide)),
    (text_to_int_contract default [.int, .bool, .string] " -12ab" ⟨2, .string " -12ab"⟩
      (.int 0) (by decide) (by decide) (by decide) rfl).2 true [ '1', '2'] [ 'a', 'b']
      ⟨[ ' '], [ '-'], by decide, by decide, by decide, by decide, by decide⟩
      (by decide) (by decide) (by decide)⟩

/-! ## Claims C5 and C6: `bool` and text -/

theorem basic_cast_string_to_bool (fp : FloatOps) (s : String) :
    _basic_cast fp .bool (.string s) = .returns (.bool (decide (s = "true"))) := by
  simp [_basic_cast, is_convertible, is_same, Val.type, Ty.is_arithmetic]

/-- C6: for every text `s`, the strict `variant_cast<bool>` of a variant
holding `s` returns, and the `bool` it returns is `true` exactly when `s` is
"true". -/
theorem text_to_bool_exact (fp : FloatOps) (Types : List Ty) (s : String) (t : Variant)
    (hnd : Types.Nodup) (hbool : Ty.bool ∈ Types) (ht : t.wf Types)
    (hv : t.value = .string s) :
    ∃ b : Bool, variant_cast fp .bool Types t = .returns (.bool b) ∧ (b = true ↔ s = "true") := by
  refine ⟨decide (s = "true"), ?_, by simp⟩
  rw [variant_cast_of_ne fp .bool Types t hnd hbool ht (by rw [hv]; simp [Val.type]), hv]
  exact basic_cast_string_to_bool fp s

/-- C6, at the text " true" over `std::variant<int, bool, std::string>`. -/
theorem text_to_bool_exact_witness :
    ∃ b : Bool, variant_cast default .bool [.int, .bool, .string] ⟨2, .string " true"⟩
        = .returns (.bool b) ∧ (b = true ↔ " true" = "true") :=
  text_to_bool_exact default [.int, .bool, .string] " true" ⟨2, .string " true"⟩
    (by decide) (by decide) (by decide) rfl

/-! ## Claim C8: the defaulting `variant_cast` -/

/-- C8: the defaulting `variant_cast<T>(t, d)` never raises; it returns what the
strict form returns whenever the strict form returns, and `d` whenever the
strict form raises, whatever the exception. -/
theorem variant_cast_default_never_raises (fp : FloatOps) (T : Ty) (Types : List Ty)
    (t : Variant) (d : Val) :
    (∀ e : Exn, variant_cast_default fp T Types t d ≠ .throws e) ∧
      (∀ v : Val, variant_cast fp T Types t = .returns v →
        variant_cast_default fp T Types t d = .returns v) ∧
      (∀ e : Exn, variant_cast fp T Types t = .throws e →
        variant_cast_default fp T Types t d = .returns d) := by
  unfold variant_cast_default
  refine ⟨?_, ?_, ?_⟩
  · intro e
    cases variant_cast fp T Types t <;> simp
  · intro v h
    rw [h]
  · intro e h
    rw [h]

/-- C8, at the text "true" cast to `int` with default 0, where the strict form
raises, and at the text "99999999999", where the parse is out of range. -/
theorem variant_cast_default_never_raises_witness :
    variant_cast_default default .int [.int, .bool, .string] ⟨2, .string "true"⟩ (.int 0)
        = .returns (.int 0) ∧
      variant_cast_default default .int [.int, .bool, .string] ⟨2, .string "99999999999"⟩
        (.int 0) = .returns (.int 0) :=
  ⟨(variant_cast_default_never_raises default .int [.int, .bool, .string]
      ⟨2, .string "true"⟩ (.int 0)).2.2 (.invalid_argument .stoi) (by decide),
    (variant_cast_default_never_raises default .int [.int, .bool, .string]
      ⟨2, .string "99999999999"⟩ (.int 0)).2.2 (.out_of_range .stoi) (by decide)⟩

/-! ## Claim C9: no rule for the pair -/

theorem basic_cast_of_no_rule (fp : FloatOps) (T : Ty) (v : Val)
    (hspec : has_specialization v.type T = false) (hconv : is_convertible v.type T = false) :
    _basic_cast fp T v = .throws (.invalid_argument (.cant_static_cast v.type T)) := by
  cases v <;> cases T <;>
    simp_all [_basic_cast, has_specialization, is_convertible, Val.type, Ty.is_arithmetic,
      is_same]

theorem variant_map.count_of_lookup (m : variant_map) (key : String) (t : Variant)
    (h : m.values.lookup key = some t) : m.count key = 1 := by
  simp [variant_map.count, h]

theorem variant_map.values_at_of_lookup (m : variant_map) (key : String) (t : Variant)
    (h : m.values.lookup key = some t) : m.values_at key = .returns t := by
  simp [variant_map.values_at, h]

/-- C9: when the active alternative `L` is not `T` and the pair `(L, T)` has
neither an explicit specialisation nor `std::is_convertible`, the strict
`variant_cast<T>` and the strict `cast_get<T>(key)` of an entry holding that
variant raise `std::invalid_argument` naming `L` and `T`, for every held value,
and the two defaulting forms return the default. -/
theorem cast_without_rule_fails (fp : FloatOps) (T : Ty) (Types : List Ty) (t : Variant)
    (d : Val) (m : variant_map) (key : String)
    (hnd : Types.Nodup) (hT : T ∈ Types) (ht : t.wf Types)
    (hspec : has_specialization t.value.type T = false)
    (hconv : is_convertible t.value.type T = false)
    (hkey : m.values.lookup key = some t) :
    variant_cast fp T Types t
        = .throws (.invalid_argument (.cant_static_cast t.value.type T)) ∧
      variant_cast_default fp T Types t d = .returns d ∧
      m.cast_get fp T Types key
        = .throws (.invalid_argument (.cant_static_cast t.value.type T)) ∧
      m.cast_get_default fp T Types key d = .returns d := by
  have hne : t.value.type ≠ T := by
    intro e
    rw [e] at hconv
    simp [is_convertible, is_same] at hconv
  have hstrict : variant_cast fp T Types t
      = .throws (.invalid_argument (.cant_static_cast t.value.type T)) := by
    rw [variant_cast_of_ne fp T Types t hnd hT ht hne]
    exact basic_cast_of_no_rule fp T t.value hspec hconv
  have hdef : variant_cast_default fp T Types t d = .returns d := by
    simp [variant_cast_default, hstrict]
  have hg : static_assert_cond T Types = true :=
    static_assert_cond_of_two T _ Types (Variant.type_mem Types t ht) hne
  have hc : Types.count T = 1 := List.count_eq_one_of_mem hnd hT
  have hh : holds_alternative T Types t = false := holds_alternative_of_ne T Types t ht hT hne
  refine ⟨hstrict, hdef, ?_, ?_⟩
  · simp [variant_map.cast_get, hg, hc, variant_map.count_of_lookup m key t hkey,
      variant_map.values_at_of_lookup m key t hkey, hh, hstrict]
  · simp [variant_map.cast_get_default, hg, hc, variant_map.count_of_lookup m key t hkey,
      variant_map.values_at_of_lookup m key t hkey, hh, hdef]

/-- C9, at `variant_map<int, std::shared_ptr<int>>` with the `int` 1 stored
under "exists" and a `std::shared_ptr<int>` requested (default: null). -/
theorem cast_without_rule_fails_witness :
    variant_cast default (.shared_ptr 0) [.int, .shared_ptr 0] ⟨0, .int 1⟩
        = .throws (.invalid_argument (.cant_static_cast .int (.shared_ptr 0))) ∧
      variant_cast_default default (.shared_ptr 0) [.int, .shared_ptr 0] ⟨0, .int 1⟩
        (.shared_ptr 0 none) = .returns (.shared_ptr 0 none) ∧
      variant_map.cast_get default (.shared_ptr 0) [.int, .shared_ptr 0]
        ⟨[("exists", ⟨0, .int 1⟩)]⟩ "exists"
        = .throws (.invalid_argument (.cant_static_cast .int (.shared_ptr 0))) ∧
      variant_map.cast_get_default default (.shared_ptr 0) [.int, .shared_ptr 0]
        ⟨[("exists", ⟨0, .int 1⟩)]⟩ "exists" (.shared_ptr 0 none)
        = .returns (.shared_ptr 0 none) :=
  cast_without_rule_fails default (.shared_ptr 0) [.int, .shared_ptr 0] ⟨0, .int 1⟩
    (.shared_ptr 0 none) ⟨[("exists", ⟨0, .int 1⟩)]⟩ "exists"
    (by decide) (by decide) (by decide) (by decide) (by decide) (by decide)

/-! ## Claim C10: `variant_to_variant` -/

theorem disjunction_is_same_iff (V : Ty) (D : List Ty) :
    disjunction (D.map (is_same V)) = true ↔ V ∈ D := by
  induction D with
  | nil => simp [disjunction]
  | cons A rest ih =>
    simp only [disjunction, is_same, List.map_cons, List.any_cons, id, Bool.or_eq_true,
      decide_eq_true_eq, List.mem_cons] at ih ⊢
    rw [ih]

/-- C10: for every source variant `t`, with active type `V` and value `v`, and
every destination set `D` of distinct types: if `V` is a member of `D`, then
`variant_to_variant<D...>` returns a variant over `D` whose value is `v`,
whose active alternative is `V`, and whose index is the position of `V` in
`D`; if `V` is not a member of `D` it raises `std::invalid_argument` with the
incompatible-type text, whatever conversion rules `V` has. -/
theorem variant_to_variant_retags (D : List Ty) (t : Variant) (hD : D.Nodup) :
    (t.value.type ∈ D →
      ∃ r : Variant, variant_to_variant D t = .returns r ∧ r.value = t.value ∧
        r.index = D.indexOf t.value.type ∧ D[r.index]? = some t.value.type ∧
        holds_alternative t.value.type D r = true) ∧
      (t.value.type ∉ D →
        variant_to_variant D t = .throws (.invalid_argument .incompatible_type)) ∧
      ((∃ r : Variant, variant_to_variant D t = .returns r) ↔ t.value.type ∈ D) := by
  have hyes : t.value.type ∈ D →
      variant_to_variant D t = .returns (Variant.of D t.value) := by
    intro h
    simp [variant_to_variant, (disjunction_is_same_iff _ D).mpr h]
  have hno : t.value.type ∉ D →
      variant_to_variant D t = .throws (.invalid_argument .incompatible_type) := by
    intro h
    have hf : disjunction (D.map (is_same t.value.type)) = false := by
      rw [Bool.eq_false_iff]
      exact fun e => h ((disjunction_is_same_iff _ D).mp e)
    simp [variant_to_variant, hf]
  refine ⟨?_, hno, ?_⟩
  · intro h
    have hwf : (Variant.of D t.value).wf D := List.getElem?_indexOf h
    exact ⟨Variant.of D t.value, hyes h, rfl, rfl, hwf,
      holds_alternative_of_eq _ D _ hD hwf rfl⟩
  · constructor
    · rintro ⟨r, hr⟩
      by_contra h
      rw [hno h] at hr
      exact absurd hr (by simp)
    · intro h
      exact ⟨_, hyes h⟩

/-- C10, at a source `std::variant<int, bool, std::string>` holding the text
"test" (index 2) and the destination set `std::string, int`, where the text is
at index 0; and at the same source type holding the `bool` `true` and the
destination set `int, std::string`, which has a conversion from `bool` to
`int` but not the type `bool`. -/
theorem variant_to_variant_retags_witness :
    (∃ r : Variant, variant_to_variant [.string, .int] ⟨2, .string "test"⟩ = .returns r ∧
      r.value = .string "test" ∧ r.index = 0 ∧
      [Ty.string, Ty.int][r.index]? = some Ty.string ∧
      holds_alternative .string [.string, .int] r = true) ∧
      variant_to_variant [.int, .string] ⟨1, .bool true⟩
        = .throws (.invalid_argument .incompatible_type) :=
  ⟨(variant_to_variant_retags [.string, .int] ⟨2, .string "test"⟩ (by decide)).1 (by decide),
    (variant_to_variant_retags [.int, .string] ⟨1, .bool true⟩ (by decide)).2.1 (by decide)⟩

/-! ## The assertions of `tests/test_handy_variant_001.cpp`, on the embedding -/

/-- `VariantTest.index_of` (lines 16-22 of the test file). -/
theorem test_index_of :
    index_of .int [.int, .float, .string] = .returns 0 ∧
      index_of .float [.int, .float, .string] = .returns 1 ∧
      index_of .string [.int, .float, .string] = .returns 2 := by
  decide

/-- `VariantTest.basic_cast` (lines 24-30 of the test file); `1.0f` is the
`static_cast<float>` of 1. -/
theorem test_basic_cast (fp : FloatOps) :
    variant_cast fp .int [.int, .float] ⟨0, .int 1⟩ = .returns (.int 1) ∧
      variant_cast fp .float [.int, .float] ⟨0, .int 1⟩
        = .returns (.float (fp.of_integral .float 1)) :=
  ⟨rfl, rfl⟩

/-- `VariantTest.basic_string_cast` (lines 32-47 of the test file). -/
theorem test_basic_string_cast (fp : FloatOps) :
    variant_cast fp .int [.int, .bool, .string] ⟨0, .int 1⟩ = .returns (.int 1) ∧
      variant_cast fp .string [.int, .bool, .string] ⟨0, .int 1⟩ = .returns (.string "1") ∧
      variant_cast fp .int [.int, .bool, .string] ⟨1, .bool true⟩ = .returns (.int 1) ∧
      variant_cast fp .string [.int, .bool, .string] ⟨1, .bool true⟩
        = .returns (.string "true") ∧
      variant_cast fp .bool [.int, .bool, .string] ⟨2, .string "true"⟩
        = .returns (.bool true) ∧
      variant_cast fp .int [.int, .bool, .string] ⟨2, .string "true"⟩
        = .throws (.invalid_argument .stoi) ∧
      variant_cast_default fp .int [.int, .bool, .string] ⟨2, .string "true"⟩ (.int 0)
        = .returns (.int 0) :=
  ⟨rfl, rfl, rfl, rfl, rfl, rfl, rfl⟩

/-- `VariantTest.variant_to_variant` (lines 49-61 of the test file). -/
theorem test_variant_to_variant :
    variant_to_variant [.int, .bool] (Variant.of [.int, .bool, .string] (.int 1))
        = .returns ⟨0, .int 1⟩ ∧
      variant_to_variant [.int, .bool] (Variant.of [.int, .bool, .string] (.string "test"))
        = .throws (.invalid_argument .incompatible_type) := by
  decide

/-- `VariantMapTest.basic_ptr`, the two `cast_get` assertions (lines 100-101 of
the test file). -/
theorem test_basic_ptr (fp : FloatOps) :
    variant_map.cast_get fp (.shared_ptr 0) [.int, .shared_ptr 0]
        ⟨[("exists", ⟨0, .int 1⟩)]⟩ "exists"
        = .throws (.invalid_argument (.cant_static_cast .int (.shared_ptr 0))) ∧
      variant_map.cast_get_default fp (.shared_ptr 0) [.int, .shared_ptr 0]
        ⟨[("exists", ⟨0, .int 1⟩)]⟩ "exists" (.shared_ptr 0 none)
        = .returns (.shared_ptr 0 none) :=
  ⟨rfl, rfl⟩

/-! ## Claims C11 and C20: the in-place `variant_to_variant` -/

/-- C11: the in-place form has the contract of the returning form.  For every
prior `dst` and every source `t`: it raises exactly the exception the returning
form raises; and it returns exactly when the returning form returns, with
`dst` then being the variant `r` the returning form gives, whatever `dst`
held before. -/
theorem variant_to_variant_in_place_refines (D : List Ty) (dst t : Variant) :
    (∀ e : Exn, variant_to_variant D t = .throws e ↔
        (variant_to_variant_in_place D dst t).1 = .throws e) ∧
      (∀ r : Variant, variant_to_variant D t = .returns r →
        variant_to_variant_in_place D dst t = (.returns (), r)) ∧
      (∀ r : Variant, variant_to_variant_in_place D dst t = (.returns (), r) →
        variant_to_variant D t = .returns r) := by
  unfold variant_to_variant variant_to_variant_in_place
  by_cases h : disjunction (D.map (is_same t.value.type)) = true
  · simp [h]
  · simp [h]

/-- C11, at a source `std::variant<int, bool, std::string>` holding the `int` 1
and two different prior contents of a `std::variant<int, bool>`: both end as
the variant the returning form gives. -/
theorem variant_to_variant_in_place_refines_witness :
    variant_to_variant_in_place [.int, .bool] ⟨1, .bool true⟩ ⟨0, .int 1⟩
        = (.returns (), ⟨0, .int 1⟩) ∧
      variant_to_variant_in_place [.int, .bool] ⟨0, .int 7⟩ ⟨0, .int 1⟩
        = (.returns (), ⟨0, .int 1⟩) :=
  ⟨(variant_to_variant_in_place_refines [.int, .bool] ⟨1, .bool true⟩ ⟨0, .int 1⟩).2.1
      ⟨0, .int 1⟩ (by decide),
    (variant_to_variant_in_place_refines [.int, .bool] ⟨0, .int 7⟩ ⟨0, .int 1⟩).2.1
      ⟨0, .int 1⟩ (by decide)⟩

/-- C20: when the active type of the source is not a member of the alternative
set of `dst`, the in-place form raises `std::invalid_argument` with the
incompatible-type text and `dst` keeps the index and the value it had. -/
theorem variant_to_variant_in_place_atomic (D : List Ty) (dst t : Variant)
    (h : t.value.type ∉ D) :
    variant_to_variant_in_place D dst t
      = (.throws (.invalid_argument .incompatible_type), dst) := by
  have hf : disjunction (D.map (is_same t.value.type)) = false := by
    rw [Bool.eq_false_iff]
    exact fun e => h ((disjunction_is_same_iff _ D).mp e)
  simp [variant_to_variant_in_place, hf]

/-- C20, at a `std::variant<int, bool>` holding `true` and a source holding the
text "test". -/
theorem variant_to_variant_in_place_atomic_witness :
    variant_to_variant_in_place [.int, .bool] ⟨1, .bool true⟩ ⟨2, .string "test"⟩
      = (.throws (.invalid_argument .incompatible_type), ⟨1, .bool true⟩) :=
  variant_to_variant_in_place_atomic [.int, .bool] ⟨1, .bool true⟩ ⟨2, .string "test"⟩
    (by decide)

/-! ## Lemmas on the entries of a `variant_map` -/

theorem lookup_assign_entry_self (key : String) (t : Variant) (l : List (String × Variant)) :
    (assign_entry key t l).lookup key = some t := by
  induction l with
  | nil => simp [assign_entry, List.lookup]
  | cons e rest ih =>
    obtain ⟨k, x⟩ := e
    by_cases hk : key = k
    · subst hk
      simp [assign_entry, List.lookup]
    · have hb : (key == k) = false := by simpa using hk
      simp only [assign_entry, hb, Bool.false_eq_true, if_false, List.lookup]
      exact ih

theorem lookup_assign_entry_other (key other : String) (t : Variant)
    (l : List (String × Variant)) (h : other ≠ key) :
    (assign_entry key t l).lookup other = l.lookup other := by
  induction l with
  | nil =>
    have hb : (other == key) = false := by simpa using h
    simp [assign_entry, List.lookup, hb]
  | cons e rest ih =>
    obtain ⟨k, x⟩ := e
    by_cases hk : key = k
    · subst hk
      have hb : (other == key) = false := by simpa using h
      simp [assign_entry, List.lookup, hb]
    · have hb : (key == k) = false := by simpa using hk
      simp only [assign_entry, hb, Bool.false_eq_true, if_false, List.lookup]
      cases other == k
      · exact ih
      · rfl

theorem variant_map.count_of_absent (m : variant_map) (key : String)
    (h : m.values.lookup key = none) : m.count key = 0 := by
  simp [variant_map.count, h]

/-! ## Claim C12: `variant_map::get` -/

/-- C12: for a member `T` of the alternative set, `get<T>(key, d)` never
raises; it returns `d` when `key` has no entry, the stored value when the
entry's active alternative is `T`, and `d` when the entry's active alternative
is another type, whatever conversion rules that type has. -/
theorem get_exact_or_default (T : Ty) (Types : List Ty) (m : variant_map) (key : String)
    (d : Val) (hnd : Types.Nodup) (hT : T ∈ Types) :
    (∀ e : Exn, m.get T Types key d ≠ .throws e) ∧
      (m.values.lookup key = none → m.get T Types key d = .returns d) ∧
      (∀ t : Variant, m.values.lookup key = some t → t.wf Types → t.value.type = T →
        m.get T Types key d = .returns t.value) ∧
      (∀ t : Variant, m.values.lookup key = some t → t.wf Types → t.value.type ≠ T →
        m.get T Types key d = .returns d) := by
  have hc : Types.count T = 1 := List.count_eq_one_of_mem hnd hT
  refine ⟨?_, ?_, ?_, ?_⟩
  · intro e
    cases hl : m.values.lookup key with
    | none => simp [variant_map.get, hc, variant_map.count, hl]
    | some t =>
      cases hh : holds_alternative T Types t <;>
        simp [variant_map.get, hc, variant_map.count_of_lookup m key t hl,
          variant_map.values_at_of_lookup m key t hl, hh]
  · intro hl
    simp [variant_map.get, hc, variant_map.count, hl]
  · intro t hl ht he
    simp [variant_map.get, hc, variant_map.count_of_lookup m key t hl,
      variant_map.values_at_of_lookup m key t hl, holds_alternative_of_eq T Types t hnd ht he]
  · intro t hl ht hne
    simp [variant_map.get, hc, variant_map.count_of_lookup m key t hl,
      variant_map.values_at_of_lookup m key t hl, holds_alternative_of_ne T Types t ht hT hne]

/-- C12, at `variant_map<int, float, std::string>` with the `int` 1 stored under
"exists": `get<std::string>` gives the default "", although the converting
`cast_get<std::string>` gives "1". -/
theorem get_exact_or_default_witness :
    variant_map.get .string [.int, .float, .string] ⟨[("exists", ⟨0, .int 1⟩)]⟩ "exists"
        (.string "") = .returns (.string "") ∧
      variant_map.cast_get default .string [.int, .float, .string]
        ⟨[("exists", ⟨0, .int 1⟩)]⟩ "exists" = .returns (.string "1") :=
  ⟨(get_exact_or_default .string [.int, .float, .string] ⟨[("exists", ⟨0, .int 1⟩)]⟩
      "exists" (.string "") (by decide) (by decide)).2.2.2 ⟨0, .int 1⟩ (by decide) (by decide)
      (by decide), by decide⟩

/-! ## Claims C16 and C18: `emplace`, and the other entries -/

/-- C16: `emplace<T>(key, v)` on a key that has an entry reports `false` and
returns the map as it was; on a key without entry it reports `true` and the
map then has, under `key`, a variant over `Types` that holds `v` as the
alternative `T`. -/
theorem emplace_inserts_only_if_absent (Types : List Ty) (m : variant_map) (key : String)
    (v : Val) (hv : v.type ∈ Types) :
    (∀ t : Variant, m.values.lookup key = some t → m.emplace Types key v = (false, m)) ∧
      (m.values.lookup key = none →
        ∃ t : Variant, (m.emplace Types key v).1 = true ∧
          (m.emplace Types key v).2.values.lookup key = some t ∧
          t.value = v ∧ t.wf Types ∧ holds_alternative v.type Types t = true) := by
  constructor
  · intro t hl
    simp [variant_map.emplace, hl]
  · intro hl
    refine ⟨Variant.of Types v, ?_, ?_, rfl, List.getElem?_indexOf hv, ?_⟩
    · simp [variant_map.emplace, hl]
    · simp [variant_map.emplace, hl, List.lookup]
    · simp [holds_alternative, Variant.of]

/-- C16, at a map that has the `int` 1 under "a": `emplace` of a text under "a"
changes nothing and reports `false`. -/
theorem emplace_inserts_only_if_absent_witness :
    variant_map.emplace [.int, .string] ⟨[("a", ⟨0, .int 1⟩)]⟩ "a" (.string "x")
      = (false, ⟨[("a", ⟨0, .int 1⟩)]⟩) :=
  (emplace_inserts_only_if_absent [.int, .string] ⟨[("a", ⟨0, .int 1⟩)]⟩ "a" (.string "x")
    (by decide)).1 ⟨0, .int 1⟩ (by decide)

/-- C18: after `set<T>(k, v)` and after `emplace<T>(k, v)`, every other key
has an entry exactly if it had one, and the entry is the variant it was. -/
theorem set_emplace_keep_other_entries (Types : List Ty) (m : variant_map) (k other : String)
    (v : Val) (h : other ≠ k) :
    (m.set Types k v).values.lookup other = m.values.lookup other ∧
      (m.emplace Types k v).2.values.lookup other = m.values.lookup other := by
  have hb : (other == k) = false := by simpa using h
  constructor
  · exact lookup_assign_entry_other k other _ m.values h
  · unfold variant_map.emplace
    split
    · rfl
    · simp [List.lookup, hb]

/-- C18, at a map with the `int` 1 under "a" and the text "x" under "b", for
`set` and `emplace` on "a" and on the new key "c". -/
theorem set_emplace_keep_other_entries_witness :
    ((variant_map.set [.int, .string] ⟨[("a", ⟨0, .int 1⟩), ("b", ⟨1, .string "x"⟩)]⟩ "a"
        (.string "y")).values.lookup "b" = some ⟨1, .string "x"⟩ ∧
      (variant_map.emplace [.int, .string] ⟨[("a", ⟨0, .int 1⟩), ("b", ⟨1, .string "x"⟩)]⟩ "a"
        (.string "y")).2.values.lookup "b" = some ⟨1, .string "x"⟩) ∧
      ((variant_map.set [.int, .string] ⟨[("a", ⟨0, .int 1⟩), ("b", ⟨1, .string "x"⟩)]⟩ "c"
        (.int 2)).values.lookup "b" = some ⟨1, .string "x"⟩ ∧
      (variant_map.emplace [.int, .string] ⟨[("a", ⟨0, .int 1⟩), ("b", ⟨1, .string "x"⟩)]⟩ "c"
        (.int 2)).2.values.lookup "b" = some ⟨1, .string "x"⟩) :=
  ⟨set_emplace_keep_other_entries [.int, .string]
      ⟨[("a", ⟨0, .int 1⟩), ("b", ⟨1, .string "x"⟩)]⟩ "a" "b" (.string "y") (by decide),
    set_emplace_keep_other_entries [.int, .string]
      ⟨[("a", ⟨0, .int 1⟩), ("b", ⟨1, .string "x"⟩)]⟩ "c" "b" (.int 2) (by decide)⟩

/-! ## Claims C13 and C14: `cast_get` -/

/-- For a key that has an entry, the strict `cast_get<T>(key)` is the strict
`variant_cast<T>` of the stored variant, compile-time rejection included. -/
theorem cast_get_of_present (fp : FloatOps) (T : Ty) (Types : List Ty) (m : variant_map)
    (key : String) (t : Variant) (hl : m.values.lookup key = some t) :
    m.cast_get fp T Types key = variant_cast fp T Types t := by
  cases hg : static_assert_cond T Types <;> cases hc : (Types.count T != 1) <;>
    cases hh : holds_alternative T Types t <;>
    simp [variant_map.cast_get, variant_cast, hg, hc, hh,
      variant_map.count_of_lookup m key t hl, variant_map.values_at_of_lookup m key t hl]

/-- For a key without entry, the strict `cast_get<T>(key)` raises
`std::invalid_argument` with the key, where the instantiation compiles. -/
theorem cast_get_of_absent (fp : FloatOps) (T : Ty) (Types : List Ty) (m : variant_map)
    (key : String) (hl : m.values.lookup key = none)
    (hg : static_assert_cond T Types = true) (hc : Types.count T = 1) :
    m.cast_get fp T Types key = .throws (.invalid_argument (.no_such_key key)) := by
  simp [variant_map.cast_get, hg, hc, variant_map.count_of_absent m key hl]

/-- C13 (the code departs from the claim): in a `variant_map` with the single
alternative `T`, the strict `cast_get<T>(key)` instantiates `variant_cast<T>`
(line 263), whose `static_assert` fails; the call is rejected for every map
and key, so for a key without entry it does not raise the key-not-found
error. -/
theorem cast_get_single_alternative_rejected (fp : FloatOps) (T : Ty) (m : variant_map)
    (key : String) : m.cast_get fp T [T] key = .ill_formed := by
  simp [variant_map.cast_get, static_assert_cond, conjunction, is_same]

/-- The defaulting `cast_get<T>(key, d)` where the instantiation compiles: it
never raises; it returns `d` for a key without entry, the stored value when
the active alternative is `T`, and otherwise what the strict `variant_cast<T>`
of the stored variant returns, or `d` when that raises. -/
theorem cast_get_default_contract (fp : FloatOps) (T : Ty) (Types : List Ty)
    (m : variant_map) (key : String) (d : Val) (hnd : Types.Nodup) (hT : T ∈ Types)
    (hg : static_assert_cond T Types = true) :
    (∀ e : Exn, m.cast_get_default fp T Types key d ≠ .throws e) ∧
      (m.values.lookup key = none → m.cast_get_default fp T Types key d = .returns d) ∧
      (∀ t : Variant, m.values.lookup key = some t → t.wf Types → t.value.type = T →
        m.cast_get_default fp T Types key d = .returns t.value) ∧
      (∀ t : Variant, m.values.lookup key = some t →
        (∀ v : Val, variant_cast fp T Types t = .returns v →
          m.cast_get_default fp T Types key d = .returns v) ∧
        (∀ e : Exn, variant_cast fp T Types t = .throws e →
          m.cast_get_default fp T Types key d = .returns d)) := by
  have hc : Types.count T = 1 := List.count_eq_one_of_mem hnd hT
  have hpresent : ∀ t : Variant, m.values.lookup key = some t →
      m.cast_get_default fp T Types key d = variant_cast_default fp T Types t d := by
    intro t hl
    cases hh : holds_alternative T Types t <;>
      simp [variant_map.cast_get_default, variant_cast_default, variant_cast, hg, hc, hh,
        variant_map.count_of_lookup m key t hl, variant_map.values_at_of_lookup m key t hl]
  have habsent : m.values.lookup key = none →
      m.cast_get_default fp T Types key d = .returns d := by
    intro hl
    simp [variant_map.cast_get_default, hg, hc, variant_map.count_of_absent m key hl]
  refine ⟨?_, habsent, ?_, ?_⟩
  · intro e
    cases hl : m.values.lookup key with
    | none => rw [habsent hl]; simp
    | some t =>
      rw [hpresent t hl]
      unfold variant_cast_default
      cases variant_cast fp T Types t <;> simp
  · intro t hl ht he
    rw [hpresent t hl]
    simp [variant_cast_default,
      variant_cast_of_holds fp T Types t hg hc (holds_alternative_of_eq T Types t hnd ht he)]
  · intro t hl
    rw [hpresent t hl]
    constructor
    · intro v hv
      simp [variant_cast_default, hv]
    · intro e he
      simp [variant_cast_default, he]

/-- The assertions of `VariantMapTest.basic` on the converting `cast_get`
(lines 86-88 of the test file): the `int` 1 read as `float` is the
`static_cast<float>` of 1, and read as text is "1". -/
theorem cast_get_default_converts (fp : FloatOps) :
    variant_map.cast_get_default fp .float [.int, .float, .string]
        ⟨[("exists", ⟨0, .int 1⟩)]⟩ "exists" (.float (fp.of_integral .float 0))
        = .returns (.float (fp.of_integral .float 1)) ∧
      variant_map.cast_get_default fp .float [.int, .float, .string]
        ⟨[("exists", ⟨0, .int 1⟩)]⟩ "not exists" (.float (fp.of_integral .float 0))
        = .returns (.float (fp.of_integral .float 0)) ∧
      variant_map.cast_get_default fp .string [.int, .float, .string]
        ⟨[("exists", ⟨0, .int 1⟩)]⟩ "exists" (.string "")
        = .returns (.string "1") :=
  ⟨rfl, rfl, rfl⟩

/-- C14 (the code departs from the claim): in a `variant_map` with the single
alternative `T`, the defaulting `cast_get<T>(key, d)` instantiates the
defaulting `variant_cast<T>` (line 253) and through it the strict one, whose
`static_assert` fails; the call is rejected for every map, key and `d`
instead of returning `d` or the stored value. -/
theorem cast_get_default_single_alternative_rejected (fp : FloatOps) (T : Ty)
    (m : variant_map) (key : String) (d : Val) :
    m.cast_get_default fp T [T] key d = .ill_formed := by
  simp [variant_map.cast_get_default, static_assert_cond, conjunction, is_same]

/-! ## Claim C15: `set` -/

theorem variant_map.count_set (Types : List Ty) (m : variant_map) (key : String) (v : Val) :
    (m.set Types key v).count key = 1 :=
  variant_map.count_of_lookup _ key _ (lookup_assign_entry_self key _ m.values)

/-- What can be read back after `set<T>(key, v)`, for `v` of a member type `T`:
`has(key)` and `is_hold_as<T>(key)` are true, `get<T>(key, d)` is `v`,
`index_at(key)` is the position of `T`, and so is `index_of<T>()` where its
`static_assert` holds. -/
theorem set_then_read (Types : List Ty) (m : variant_map) (key : String) (v d : Val)
    (hnd : Types.Nodup) (hv : v.type ∈ Types) :
    (m.set Types key v).has key = true ∧
      (m.set Types key v).is_hold_as v.type Types key = .returns true ∧
      (m.set Types key v).get v.type Types key d = .returns v ∧
      ((m.set Types key v).index_at key).1 = .returns (Types.indexOf v.type) ∧
      (static_assert_cond v.type Types = true →
        variant_map.index_of v.type Types = .returns (Types.indexOf v.type)) := by
  have hl : (m.set Types key v).values.lookup key = some (Variant.of Types v) :=
    lookup_assign_entry_self key _ m.values
  have hc : Types.count v.type = 1 := List.count_eq_one_of_mem hnd hv
  have hh : holds_alternative v.type Types (Variant.of Types v) = true := by
    simp [holds_alternative, Variant.of]
  have hval : (Variant.of Types v).value = v := rfl
  have hidx : (Variant.of Types v).index = Types.indexOf v.type := rfl
  refine ⟨?_, ?_, ?_, ?_, ?_⟩
  · simp [variant_map.has, variant_map.count_of_lookup _ key _ hl]
  · simp [variant_map.is_hold_as, hc, variant_map.count_of_lookup _ key _ hl,
      variant_map.values_at_of_lookup _ key _ hl, hh]
  · simp [variant_map.get, hc, variant_map.count_of_lookup _ key _ hl,
      variant_map.values_at_of_lookup _ key _ hl, hh, hval]
  · simp [variant_map.index_at, variant_map.values_at_of_lookup _ key _ hl, hidx]
  · intro hg
    simp [variant_map.index_of, hg, get_index_in_of_mem v.type Types 0 hv]

/-- C15 (the code departs from the claim): in a `variant_map` with the single
alternative `T`, after `set<T>(key, v)` the call `index_at(key)` returns 0, but
`index_of<T>()` is rejected by its `static_assert`, so the two cannot be
equal. -/
theorem set_single_alternative_index_of_rejected (m : variant_map) (key : String) (v : Val) :
    ((m.set [v.type] key v).index_at key).1 = .returns 0 ∧
      variant_map.index_of v.type [v.type] = .ill_formed := by
  constructor
  · have hl : (m.set [v.type] key v).values.lookup key = some (Variant.of [v.type] v) :=
      lookup_assign_entry_self key _ m.values
    simp [variant_map.index_at, variant_map.values_at_of_lookup _ key _ hl, Variant.of]
  · simp [variant_map.index_of, static_assert_cond, conjunction, is_same]

/-! ## Claim C17: `index_at` -/

/-- For a key that has an entry, `index_at(key)` returns the active index of
the entry and leaves the map as it was. -/
theorem index_at_of_present (m : variant_map) (key : String) (t : Variant)
    (hl : m.values.lookup key = some t) : m.index_at key = (.returns t.index, m) := by
  simp [variant_map.index_at, variant_map.values_at, hl]

/-- C17 (the code departs from the claim): for a key without entry,
`index_at(key)` has no check of `count(key)` and lets the `std::out_of_range`
of `std::unordered_map::at` escape (line 280); it is never a
`std::invalid_argument`, the class of the key-not-found error that the strict
`cast_get<T>(key)` raises for the same key (lines 259-260).  The map is left
as it was. -/
theorem index_at_absent_raises_out_of_range (m : variant_map) (key : String)
    (hl : m.values.lookup key = none) :
    m.index_at key = (.throws (.out_of_range .map_at), m) ∧
      (∀ w : What, (m.index_at key).1 ≠ .throws (.invalid_argument w)) ∧
      (∀ (fp : FloatOps) (T : Ty) (Types : List Ty), static_assert_cond T Types = true →
        Types.count T = 1 →
        m.cast_get fp T Types key = .throws (.invalid_argument (.no_such_key key))) := by
  have hi : m.index_at key = (.throws (.out_of_range .map_at), m) := by
    simp [variant_map.index_at, variant_map.values_at, hl]
  refine ⟨hi, ?_, ?_⟩
  · intro w
    rw [hi]
    simp
  · intro fp T Types hg hc
    simp [variant_map.cast_get, hg, hc, variant_map.count_of_absent m key hl]

/-- C17, at the empty `variant_map<int, float, std::string>` and the key
"missing": `index_at` raises `std::out_of_range`, the strict `cast_get<int>`
raises `std::invalid_argument` with the key. -/
theorem index_at_absent_raises_out_of_range_witness :
    variant_map.index_at ⟨[]⟩ "missing" = (.throws (.out_of_range .map_at), ⟨[]⟩) ∧
      variant_map.cast_get default .int [.int, .float, .string] ⟨[]⟩ "missing"
        = .throws (.invalid_argument (.no_such_key "missing")) :=
  ⟨(index_at_absent_raises_out_of_range ⟨[]⟩ "missing" (by decide)).1,
    (index_at_absent_raises_out_of_range ⟨[]⟩ "missing" (by decide)).2.2
      default .int [.int, .float, .string] (by decide) (by decide)⟩

/-! ## Claim C19: conversions between `bool` and `int` -/

/-- C19: for a variant over a set of distinct types that has `int` and `bool`
(such as `int, bool, std::string`): holding the `bool` `b`, the strict
`variant_cast<int>` returns 1 if `b` is true and 0 if not; holding the `int`
`n`, the strict `variant_cast<bool>` returns `true` exactly when `n` is not 0.
Neither pair has an explicit specialisation: both are `std::is_convertible`
and go through `static_cast`. -/
theorem bool_int_native_conversion (fp : FloatOps) (Types : List Ty) (t : Variant)
    (hnd : Types.Nodup) (hint : Ty.int ∈ Types) (hbool : Ty.bool ∈ Types) (ht : t.wf Types) :
    (∀ b : Bool, t.value = .bool b →
        variant_cast fp .int Types t = .returns (.int (if b then 1 else 0)) ∧
        variant_cast fp .int Types t = .returns (static_cast fp .int t.value)) ∧
      (∀ n : Int, t.value = .int n →
        variant_cast fp .bool Types t = .returns (.bool (decide (n ≠ 0))) ∧
        variant_cast fp .bool Types t = .returns (static_cast fp .bool t.value)) ∧
      has_specialization .bool .int = false ∧ has_specialization .int .bool = false ∧
      is_convertible .bool .int = true ∧ is_convertible .int .bool = true := by
  refine ⟨?_, ?_, rfl, rfl, rfl, rfl⟩
  · intro b hv
    rw [variant_cast_of_ne fp .int Types t hnd hint ht (by rw [hv]; simp [Val.type]), hv]
    cases b <;> exact ⟨rfl, rfl⟩
  · intro n hv
    rw [variant_cast_of_ne fp .bool Types t hnd hbool ht (by rw [hv]; simp [Val.type]), hv]
    exact ⟨rfl, rfl⟩

/-- C19, over `std::variant<int, bool, std::string>`, at `true` and at the
`int` -3. -/
theorem bool_int_native_conversion_witness :
    variant_cast default .int [.int, .bool, .string] ⟨1, .bool true⟩ = .returns (.int 1) ∧
      variant_cast default .bool [.int, .bool, .string] ⟨0, .int (-3)⟩
        = .returns (.bool true) :=
  ⟨((bool_int_native_conversion default [.int, .bool, .string] ⟨1, .bool true⟩
      (by decide) (by decide) (by decide) (by decide)).1 true rfl).1,
    ((bool_int_native_conversion default [.int, .bool, .string] ⟨0, .int (-3)⟩
      (by decide) (by decide) (by decide) (by decide)).2.1 (-3) rfl).1⟩

/-! ## The assertions of `VariantMapTest.basic`, on the embedding -/

/-- `VariantMapTest.basic` (lines 70-85 of the test file); the assertions of
lines 86-88 are `cast_get_default_converts`. -/
theorem test_map_basic (fp : FloatOps) :
    variant_map.index_of .int [.int, .float, .string] = .returns 0 ∧
      variant_map.index_of .float [.int, .float, .string] = .returns 1 ∧
      variant_map.index_of .string [.int, .float, .string] = .returns 2 ∧
      ((variant_map.set [.int, .float, .string] ⟨[]⟩ "exists" (.int 1)).index_at "exists").1
        = .returns 0 ∧
      (variant_map.set [.int, .float, .string] ⟨[]⟩ "exists" (.int 1)).get .int
        [.int, .float, .string] "exists" (.int 0) = .returns (.int 1) ∧
      (variant_map.set [.int, .float, .string] ⟨[]⟩ "exists" (.int 1)).cast_get fp .int
        [.int, .float, .string] "not exists"
        = .throws (.invalid_argument (.no_such_key "not exists")) ∧
      (variant_map.set [.int, .float, .string] ⟨[]⟩ "exists" (.int 1)).get .int
        [.int, .float, .string] "not exists" (.int 3) = .returns (.int 3) :=
  ⟨rfl, rfl, rfl, rfl, rfl, rfl, rfl⟩

end handy_variant
